import Mathlib

/-!
Shallow embedding of `scripts/run-asan.py`: the transactional patcher that
instruments MoonBit package configuration files (`moon.pkg.json` structured
format and `moon.pkg` free-text DSL format) with AddressSanitizer flags,
runs the external test runner, and restores every touched file.

Files are modelled as decoded text (`String`); Python reads and writes the
files in UTF-8 text mode, so the on-disk byte content corresponds to the
encoded string (newline translation of text mode is not modelled).
Python character indices correspond to indices into `String.data`.
-/

/-- The constant `ASAN_COMPILE_FLAGS` from the source (line 34). -/
def ASAN_COMPILE_FLAGS : String := "-g -fsanitize=address -fno-omit-frame-pointer"

/-- A flag mapping as produced by the platform selectors (`macos_flags`,
`linux_flags`, `windows_flags`): an ordered key-to-string-value mapping,
after `detect_leaks` has been popped by `main`. -/
abbrev FlagSet := List (String × String)

/-- Dictionary lookup in a `FlagSet`: models both `flags["k"]` and the
membership test `"k" in flags`. -/
def FlagSet.get? : FlagSet → String → Option String
  | [], _ => none
  | (k, v) :: rest, key => if k = key then some v else FlagSet.get? rest key

/-- Characters matched by the regex class `\s` in Python (ASCII range; the
flag files are ASCII so the extra Unicode spaces never arise). -/
def pyWs (c : Char) : Bool :=
  c = ' ' || c = '\t' || c = '\n' || c = '\r' || c = '\x0b' || c = '\x0c'

/-- Longest whitespace run at the front of the text, as matched by a
greedy `\s*`: returns the run and the remainder. -/
def spanWs : List Char → List Char × List Char
  | [] => ([], [])
  | c :: rest =>
    if pyWs c then
      let (w, r) := spanWs rest
      (c :: w, r)
    else ([], c :: rest)

/-- Longest run of non-quote characters at the front of the text, as
matched by a greedy `[^"]*`: returns the run and the remainder. -/
def spanNotQuote : List Char → List Char × List Char
  | [] => ([], [])
  | c :: rest =>
    if c = '"' then ([], c :: rest)
    else
      let (v, r) := spanNotQuote rest
      (c :: v, r)

/-- Match one literal character at the front of the text. -/
def expectChar (c : Char) : List Char → Option (List Char)
  | [] => none
  | x :: rest => if x = c then some rest else none

/-- Match a literal character sequence at the front of the text. -/
def stripLit : List Char → List Char → Option (List Char)
  | [], cs => some cs
  | _ :: _, [] => none
  | l :: ls, c :: cs => if c = l then stripLit ls cs else none

/-- Attempt to match the regex `"native"\s*:\s*\{` (from
`_find_native_block`, line 272) at the front of the text; on success
return the number of characters consumed (so that the absolute match end
is the position just after the opening brace, i.e. `m.end()`). -/
def matchNativeOpen (cs : List Char) : Option Nat :=
  match stripLit ("\"native\"".data) cs with
  | none => none
  | some rem1 =>
    let (w1, rem2) := spanWs rem1
    match expectChar ':' rem2 with
    | none => none
    | some rem3 =>
      let (w2, rem4) := spanWs rem3
      match expectChar '\x7b' rem4 with
      | none => none
      | some _ => some (8 + w1.length + 1 + w2.length + 1)

/-- Leftmost match of the `"native"\s*:\s*\{` pattern (`re.search` tries
each start position from the left); returns the absolute match end. -/
def findNativeOpen : List Char → Nat → Option Nat
  | [], _ => none
  | c :: rest, pos =>
    match matchNativeOpen (c :: rest) with
    | some k => some (pos + k)
    | none => findNativeOpen rest (pos + 1)

/-- One step of the brace-depth counter in `_find_native_block`
(lines 278-283). -/
def braceStep (d : Nat) (c : Char) : Nat :=
  if c = '\x7b' then d + 1 else if c = '\x7d' then d - 1 else d

/-- The scanning loop of `_find_native_block` (lines 276-283):
`while pos < len(text) and depth > 0`, updating the depth on each brace
and advancing `pos`; returns the final `pos`. -/
def scanBlock : List Char → Nat → Nat → Nat
  | [], _, pos => pos
  | c :: rest, d, pos => if d = 0 then pos else scanBlock rest (braceStep d c) (pos + 1)

/-- Model of `_find_native_block` (lines 267-284): find the span of the
`"native": { ... }` block, returning `(start_of_content,
end_of_closing_brace)` or `none`. -/
def find_native_block (text : String) : Option (Nat × Nat) :=
  match findNativeOpen text.data 0 with
  | none => none
  | some s => some (s, scanBlock (text.data.drop s) 1 s)

/-- Scanner for the regex `\n(\s+)"` of `_detect_native_indent`: at each
position, a newline followed by a non-empty greedy whitespace run followed
by a quote; returns the captured whitespace run of the first match. -/
def detectIndentGo : List Char → Option (List Char)
  | [] => none
  | c :: rest =>
    if c = '\n' then
      let (w, rem) := spanWs rest
      if !w.isEmpty && rem.head? = some '"' then some w else detectIndentGo rest
    else detectIndentGo rest

/-- Model of `_detect_native_indent` (lines 287-290): detect the
indentation used for entries inside the native block by searching
`\n(\s+)"` inside `text[content_start : content_end - 1]`, defaulting to
six spaces. -/
def detect_native_indent (text : String) (contentStart contentEnd : Nat) : String :=
  match detectIndentGo ((text.data.drop contentStart).take (contentEnd - 1 - contentStart)) with
  | some w => String.mk w
  | none => "      "

/-- Attempt to match the regex `("<key>"\s*:\s*)"([^"]*)"` (from
`_replace_or_insert_in_native`, line 296) at the front of the text.
Returns (text of capture group 1, value captured by group 2, total
characters consumed). -/
def matchKeyAssign (key : String) (cs : List Char) : Option (List Char × String × Nat) :=
  let kq : List Char := '"' :: key.data ++ ['"']
  match stripLit kq cs with
  | none => none
  | some rem1 =>
    let (w1, rem2) := spanWs rem1
    match expectChar ':' rem2 with
    | none => none
    | some rem3 =>
      let (w2, rem4) := spanWs rem3
      match expectChar '"' rem4 with
      | none => none
      | some rem5 =>
        let (v, rem6) := spanNotQuote rem5
        match expectChar '"' rem6 with
        | none => none
        | some _ =>
          some (kq ++ w1 ++ ':' :: w2, String.mk v,
            kq.length + w1.length + 1 + w2.length + 1 + v.length + 1)

/-- First match of the key-assignment regex anywhere in the text,
returning the captured value (models `pattern.search` / `re.search` with
`m.group(1)` for the value pattern). -/
def searchKeyAssign (key : String) : List Char → Option String
  | [] => none
  | c :: rest =>
    match matchKeyAssign key (c :: rest) with
    | some r => some r.2.1
    | none => searchKeyAssign key rest

/-- Worker for `pattern.sub`: replace every non-overlapping match of the
key-assignment regex, left to right, by group 1 followed by the quoted new
value (the replacement template `\g<1>"{value}"`). Fuel is at least the
text length plus one, so it never runs out. -/
def subKeyGo (key value : String) : Nat → List Char → List Char
  | 0, cs => cs
  | _ + 1, [] => []
  | fuel + 1, c :: rest =>
    match matchKeyAssign key (c :: rest) with
    | some (g1, _, consumed) =>
      g1 ++ '"' :: value.data ++ '"' :: subKeyGo key value fuel ((c :: rest).drop consumed)
    | none => c :: subKeyGo key value fuel rest

/-- Model of `pattern.sub(rf'\g<1>"{value}"', text)` at line 298. -/
def subKeyAll (key value : String) (text : String) : String :=
  String.mk (subKeyGo key value (text.data.length + 1) text.data)

/-- Model of `_replace_or_insert_in_native` (lines 293-308): replace an
existing key assignment anywhere in the text, or insert a new entry just
before the closing brace of the `"native"` block. Raising `ValueError` is
modelled as `Except.error`. -/
def replace_or_insert_in_native (text key value : String) : Except String String :=
  if (searchKeyAssign key text.data).isSome then
    .ok (subKeyAll key value text)
  else
    match find_native_block text with
    | none => .error ("No \"native\" block found in moon.pkg")
    | some (contentStart, blockEnd) =>
      let closing := blockEnd - 1
      let indent := detect_native_indent text contentStart blockEnd
      let insertion := indent ++ "\"" ++ key ++ "\": \"" ++ value ++ "\",\n"
      .ok (String.mk (text.data.take closing) ++ insertion ++ String.mk (text.data.drop closing))

/-- Model of `patch_dsl_file` (lines 311-344) on the file content: patch a
`moon.pkg` DSL file by text manipulation. `sys.exit` on a missing native
block is modelled as `Except.error`. -/
def patch_dsl_file (text : String) (flags : FlagSet) (is_entry : Bool) : Except String String :=
  match find_native_block text with
  | none => .error ("No \"native\" block found. Cannot patch ASan flags without an existing link.native section.")
  | some _ =>
    let step1 : Except String String :=
      match is_entry, FlagSet.get? flags "cc-flags" with
      | true, some v => replace_or_insert_in_native text "cc-flags" v
      | _, _ => .ok text
    match step1 with
    | .error e => .error e
    | .ok text1 =>
      match FlagSet.get? flags "stub-cc-flags" with
      | some v => replace_or_insert_in_native text1 "stub-cc-flags" v
      | none =>
        match searchKeyAssign "stub-cc-flags" text1.data with
        | some existing =>
          replace_or_insert_in_native text1 "stub-cc-flags" (existing ++ " " ++ ASAN_COMPILE_FLAGS)
        | none =>
          replace_or_insert_in_native text1 "stub-cc-flags" ASAN_COMPILE_FLAGS

/-!
JSON documents. `moon.pkg.json` files are parsed with `json.loads` into
order-preserving dicts; we model JSON values by `JVal`, with objects as
ordered association lists (Python dicts preserve insertion order;
duplicate keys keep the first position and the last value).
-/

/-- A JSON value. Numbers in the package files are integers; floats are
not modelled (none of the files contain any). -/
inductive JVal where
  | str : String → JVal
  | num : Int → JVal
  | bool : Bool → JVal
  | null : JVal
  | arr : List JVal → JVal
  | obj : List (String × JVal) → JVal

/-- Dict lookup: models `d.get(key)` on a Python dict. -/
def dget? : List (String × JVal) → String → Option JVal
  | [], _ => none
  | (k, v) :: rest, key => if k = key then some v else dget? rest key

/-- Dict assignment `d[key] = val`: update in place if the key exists,
otherwise append (Python dicts keep the first insertion position). -/
def dset : List (String × JVal) → String → JVal → List (String × JVal)
  | [], key, val => [(key, val)]
  | (k, v) :: rest, key, val =>
    if k = key then (k, val) :: rest else (k, v) :: dset rest key val

/-- Python truthiness of a JSON value (`elif existing_stub_flags:`). -/
def jTruthy : JVal → Bool
  | .str s => !(s == "")
  | .num n => !(n == 0)
  | .bool b => b
  | .null => false
  | .arr l => !l.isEmpty
  | .obj l => !l.isEmpty

/-- Model of `patch_link_native_json` (lines 208-243): patch `link.native`
in a parsed JSON dict with ASan flags. Always patches `stub-cc-flags`;
patches `cc-flags` only when `is_entry` is true. A JSON `null` at `link`
or `link.native` behaves like an absent key: `dict.get` returns `None`
and the code auto-vivifies an empty object (the later assignment replaces
the null in place, which `dset` reproduces). `ValueError` (and the
`TypeError` Python would raise when concatenating a non-string
`stub-cc-flags` value) are modelled as `Except.error`. -/
def patch_link_native_json (root : List (String × JVal)) (flags : FlagSet)
    (pkgPath : String) (is_entry : Bool) : Except String (List (String × JVal)) :=
  let linkE : Except String (List (String × JVal)) :=
    match dget? root "link" with
    | none => .ok []
    | some .null => .ok []
    | some (.obj l) => .ok l
    | some _ => .error ("Expected \"link\" object in " ++ pkgPath)
  match linkE with
  | .error e => .error e
  | .ok link =>
    let nativeE : Except String (List (String × JVal)) :=
      match dget? link "native" with
      | none => .ok []
      | some .null => .ok []
      | some (.obj n) => .ok n
      | some _ => .error ("Expected \"link.native\" object in " ++ pkgPath)
    match nativeE with
    | .error e => .error e
    | .ok native =>
      let native1 :=
        match is_entry, FlagSet.get? flags "cc-flags" with
        | true, some v => dset native "cc-flags" (.str v)
        | _, _ => native
      let stubE : Except String (List (String × JVal)) :=
        match FlagSet.get? flags "stub-cc-flags" with
        | some v => .ok (dset native1 "stub-cc-flags" (.str v))
        | none =>
          let existing := (dget? native1 "stub-cc-flags").getD (.str "")
          if jTruthy existing then
            match existing with
            | .str e => .ok (dset native1 "stub-cc-flags" (.str (e ++ " " ++ ASAN_COMPILE_FLAGS)))
            | _ => .error ("TypeError: can only concatenate str to str in " ++ pkgPath)
          else
            .ok (dset native1 "stub-cc-flags" (.str ASAN_COMPILE_FLAGS))
      match stubE with
      | .error e => .error e
      | .ok native2 => .ok (dset root "link" (.obj (dset link "native" (.obj native2))))

/-!
Models of `json.loads` and `json.dumps(..., indent=2)` from the Python
standard library, on the JSON subset these package files use (objects,
arrays, strings with simple escapes, integers, booleans, null; ASCII
text). Recursion is fuelled; `json_loads` supplies fuel larger than the
input length, which bounds the nesting depth.
-/

/-- Parse the body of a JSON string after its opening quote; returns the
decoded characters and the remainder after the closing quote. Handles the
simple escapes; `\\uXXXX` is not modelled (unused by these files). -/
def parseStringBody : List Char → Option (List Char × List Char)
  | [] => none
  | c :: rest =>
    if c = '"' then some ([], rest)
    else if c = '\\' then
      match rest with
      | [] => none
      | e :: rest2 =>
        let dec : Option Char :=
          if e = '"' then some '"'
          else if e = '\\' then some '\\'
          else if e = '/' then some '/'
          else if e = 'n' then some '\n'
          else if e = 't' then some '\t'
          else if e = 'r' then some '\r'
          else none
        match dec with
        | none => none
        | some d =>
          match parseStringBody rest2 with
          | none => none
          | some (cs, rem) => some (d :: cs, rem)
    else
      match parseStringBody rest with
      | none => none
      | some (cs, rem) => some (c :: cs, rem)

/-- Whitespace accepted between JSON tokens. -/
def skipJsonWs : List Char → List Char
  | [] => []
  | c :: rest =>
    if c = ' ' || c = '\t' || c = '\n' || c = '\r' then skipJsonWs rest else c :: rest

/-- Span of decimal digits at the front of the text. -/
def parseDigits : List Char → List Char × List Char
  | [] => ([], [])
  | c :: rest =>
    if c.isDigit then
      let (d, r) := parseDigits rest
      (c :: d, r)
    else ([], c :: rest)

/-- Numeric value of a digit run. -/
def digitsToNat (ds : List Char) : Nat :=
  ds.foldl (fun a c => a * 10 + (c.toNat - 48)) 0

mutual

/-- Parse one JSON value (after skipping leading whitespace). -/
def parseValue : Nat → List Char → Option (JVal × List Char)
  | 0, _ => none
  | fuel + 1, cs =>
    match skipJsonWs cs with
    | [] => none
    | c :: rest =>
      if c = '"' then
        match parseStringBody rest with
        | none => none
        | some (b, rem) => some (.str (String.mk b), rem)
      else if c = '\x7b' then
        match skipJsonWs rest with
        | '\x7d' :: rem => some (.obj [], rem)
        | cs2 =>
          match parseObjItems fuel cs2 [] with
          | none => none
          | some (l, rem) => some (.obj l, rem)
      else if c = '[' then
        match skipJsonWs rest with
        | ']' :: rem => some (.arr [], rem)
        | cs2 =>
          match parseArrItems fuel cs2 [] with
          | none => none
          | some (l, rem) => some (.arr l.reverse, rem)
      else if c = 't' then
        match stripLit ("rue".data) rest with
        | none => none
        | some rem => some (.bool true, rem)
      else if c = 'f' then
        match stripLit ("alse".data) rest with
        | none => none
        | some rem => some (.bool false, rem)
      else if c = 'n' then
        match stripLit ("ull".data) rest with
        | none => none
        | some rem => some (.null, rem)
      else if c = '-' then
        match parseDigits rest with
        | ([], _) => none
        | (ds, rem) => some (.num (-(digitsToNat ds : Int)), rem)
      else if c.isDigit then
        match parseDigits (c :: rest) with
        | ([], _) => none
        | (ds, rem) => some (.num (digitsToNat ds : Int), rem)
      else none

/-- Parse the members of a JSON object, positioned at a key. -/
def parseObjItems : Nat → List Char → List (String × JVal) →
    Option (List (String × JVal) × List Char)
  | 0, _, _ => none
  | fuel + 1, cs, acc =>
    match cs with
    | '"' :: rest =>
      match parseStringBody rest with
      | none => none
      | some (kb, rem1) =>
        match expectChar ':' (skipJsonWs rem1) with
        | none => none
        | some rem3 =>
          match parseValue fuel rem3 with
          | none => none
          | some (v, rem4) =>
            let acc2 := dset acc (String.mk kb) v
            match skipJsonWs rem4 with
            | ',' :: rem6 => parseObjItems fuel (skipJsonWs rem6) acc2
            | '\x7d' :: rem6 => some (acc2, rem6)
            | _ => none
    | _ => none

/-- Parse the elements of a JSON array (accumulated in reverse). -/
def parseArrItems : Nat → List Char → List JVal → Option (List JVal × List Char)
  | 0, _, _ => none
  | fuel + 1, cs, acc =>
    match parseValue fuel cs with
    | none => none
    | some (v, rem) =>
      match skipJsonWs rem with
      | ',' :: rem2 => parseArrItems fuel rem2 (v :: acc)
      | ']' :: rem2 => some (v :: acc, rem2)
      | _ => none

end

/-- Model of `json.loads` on the JSON subset used by the package files. -/
def json_loads (s : String) : Option JVal :=
  match parseValue (s.data.length + 2) s.data with
  | none => none
  | some (v, rem) => if (skipJsonWs rem).isEmpty then some v else none

/-- Escape one character as in `json.dumps` output (the files are ASCII,
so the `ensure_ascii` escaping of non-ASCII characters never fires). -/
def jsonEscapeChar (c : Char) : List Char :=
  if c = '"' then ['\\', '"']
  else if c = '\\' then ['\\', '\\']
  else if c = '\n' then ['\\', 'n']
  else if c = '\t' then ['\\', 't']
  else if c = '\r' then ['\\', 'r']
  else [c]

/-- Render a JSON string literal with quotes. -/
def jsonQuote (s : String) : String :=
  "\"" ++ String.mk (s.data.foldr (fun c acc => jsonEscapeChar c ++ acc) []) ++ "\""

/-- Indentation for nesting level `lvl` under `indent=2`. -/
def indentOf (lvl : Nat) : String :=
  String.mk (List.replicate (2 * lvl) ' ')

mutual

/-- Serialize a JSON value as `json.dumps(v, indent=2)` does, at nesting
level `lvl`. -/
def dumpsVal : Nat → Nat → JVal → String
  | 0, _, _ => ""
  | fuel + 1, lvl, v =>
    match v with
    | .str s => jsonQuote s
    | .num n => toString n
    | .bool b => if b then "true" else "false"
    | .null => "null"
    | .arr [] => "[]"
    | .arr (x :: xs) =>
      "[\n" ++ dumpsItemsA fuel (lvl + 1) (x :: xs) ++ "\n" ++ indentOf lvl ++ "]"
    | .obj [] => "\x7b\x7d"
    | .obj (p :: ps) =>
      "\x7b\n" ++ dumpsItemsO fuel (lvl + 1) (p :: ps) ++ "\n" ++ indentOf lvl ++ "\x7d"

/-- Serialize the members of a JSON object, one per line. -/
def dumpsItemsO : Nat → Nat → List (String × JVal) → String
  | 0, _, _ => ""
  | _ + 1, _, [] => ""
  | fuel + 1, lvl, [p] => indentOf lvl ++ jsonQuote p.1 ++ ": " ++ dumpsVal fuel lvl p.2
  | fuel + 1, lvl, p :: q :: rest =>
    indentOf lvl ++ jsonQuote p.1 ++ ": " ++ dumpsVal fuel lvl p.2 ++ ",\n" ++
      dumpsItemsO fuel lvl (q :: rest)

/-- Serialize the elements of a JSON array, one per line. -/
def dumpsItemsA : Nat → Nat → List JVal → String
  | 0, _, _ => ""
  | _ + 1, _, [] => ""
  | fuel + 1, lvl, [x] => indentOf lvl ++ dumpsVal fuel lvl x
  | fuel + 1, lvl, x :: y :: rest =>
    indentOf lvl ++ dumpsVal fuel lvl x ++ ",\n" ++ dumpsItemsA fuel lvl (y :: rest)

end

/-- Model of `json.dumps(v, indent=2)`; fuel 1000 covers any nesting depth
these files can have. -/
def json_dumps (v : JVal) : String := dumpsVal 1000 0 v

/-- Model of `patch_json_file` (lines 246-259) on the file content: parse,
patch via `patch_link_native_json`, and re-serialize with
`json.dumps(moon_pkg, indent=2) + "\n"`. The `sys.exit` calls on parse
failure and on `ValueError` are modelled as `Except.error`. -/
def patch_json_file (text pkgPath : String) (flags : FlagSet) (is_entry : Bool) :
    Except String String :=
  match json_loads text with
  | none => .error ("Failed to parse JSON in " ++ pkgPath)
  | some (.obj root) =>
    match patch_link_native_json root flags pkgPath is_entry with
    | .error e => .error e
    | .ok root2 => .ok (json_dumps (.obj root2) ++ "\n")
  | some _ => .error ("Package file is not a JSON object: " ++ pkgPath)

/-!
Package path resolution and the main transaction. File system paths are
modelled as component lists (`FsPath`); `Path.resolve()` canonicalisation
is modelled as the identity (no symlinks in the model), and the file
system is abstracted as a content map plus an `is_file` predicate. The
entry/library classification `_is_entry_package` reads the file system
and is abstracted as a boolean-valued function of the target, as the spec
treats it (an external collaborator supplying a role flag).
-/

/-- A file system path, as a list of components. -/
abbrev FsPath := List String

/-- A `--pkg` argument: `Path(pkg_arg)`, with its absolute-path flag. -/
structure PkgArg where
  isAbs : Bool
  parts : List String

/-- Model of `Path.name`: the final component. -/
def pathName (p : FsPath) : String := (p.getLast?).getD ""

/-- Model of `Path.with_name`: replace the final component. -/
def withName (p : FsPath) (n : String) : FsPath := p.dropLast ++ [n]

/-- Display form of a path. -/
def pathStr (p : FsPath) : String := String.intercalate "/" p

/-- Display form of a `--pkg` argument. -/
def argStr (a : PkgArg) : String :=
  (if a.isAbs then "/" else "") ++ String.intercalate "/" a.parts

/-- The requested path of `resolve_pkg_path` (lines 181-182):
`requested if requested.is_absolute() else (repo_root / requested)`. -/
def pkg_requested (root : FsPath) (a : PkgArg) : FsPath :=
  if a.isAbs then a.parts else root ++ a.parts

/-- The ordered candidate list built by `resolve_pkg_path`
(lines 184-193): both formats are tried when the basename names one of
them, the JSON variant first in both cases; any other name is tried
as given. -/
def pkg_candidates (root : FsPath) (a : PkgArg) : List FsPath :=
  let requested := pkg_requested root a
  if pathName requested = "moon.pkg" then
    [withName requested "moon.pkg.json", requested]
  else if pathName requested = "moon.pkg.json" then
    [requested, withName requested "moon.pkg"]
  else
    [requested]

/-- The candidate loop of `resolve_pkg_path` (lines 195-197): first
candidate that is a regular file. -/
def resolveFrom (isFile : FsPath → Bool) : List FsPath → Option FsPath
  | [] => none
  | c :: rest => if isFile c then some c else resolveFrom isFile rest

/-- The fatal message of `resolve_pkg_path` (lines 199-200), naming every
attempted candidate. -/
def notFoundMsg (a : PkgArg) (candidates : List FsPath) : String :=
  "Package file not found for --pkg " ++ argStr a ++ ". Tried: " ++
    String.intercalate ", " (candidates.map pathStr)

/-- Model of `resolve_pkg_path` (lines 180-200); `sys.exit` on failure is
modelled as `Except.error`. -/
def resolve_pkg_path (isFile : FsPath → Bool) (root : FsPath) (a : PkgArg) :
    Except String FsPath :=
  let candidates := pkg_candidates root a
  match resolveFrom isFile candidates with
  | some c => .ok c
  | none => .error (notFoundMsg a candidates)

/-- The resolve-and-deduplicate loop of `main` (lines 404-417): resolve
each argument, skipping a path already seen; `seen` accumulates the
resolved paths. -/
def collectGo (isFile : FsPath → Bool) (root : FsPath) :
    List PkgArg → List FsPath → Except String (List FsPath)
  | [], _ => .ok []
  | a :: rest, seen =>
    match resolve_pkg_path isFile root a with
    | .error e => .error e
    | .ok p =>
      if p ∈ seen then collectGo isFile root rest seen
      else
        match collectGo isFile root rest (p :: seen) with
        | .error e => .error e
        | .ok l => .ok (p :: l)

/-- The deduplicated target list produced by `main`. -/
def collect_pkg_paths (isFile : FsPath → Bool) (root : FsPath) (args : List PkgArg) :
    Except String (List FsPath) :=
  collectGo isFile root args []

/-- Resolution of every argument in order, without deduplication.
Modelled from the spec: the resolver output before "Resolved paths are
deduplicated by canonical absolute path". Used to state what the
deduplication step does. -/
def resolveAll (isFile : FsPath → Bool) (root : FsPath) :
    List PkgArg → Except String (List FsPath)
  | [] => .ok []
  | a :: rest =>
    match resolve_pkg_path isFile root a with
    | .error e => .error e
    | .ok p =>
      match resolveAll isFile root rest with
      | .error e => .error e
      | .ok l => .ok (p :: l)

/-- First-occurrence-wins deduplication, dropping elements already in
`seen`. Modelled from the spec: "a later duplicate request is dropped
silently (first occurrence wins, preserving the user's original
ordering)". -/
def dedupSeen : List FsPath → List FsPath → List FsPath
  | _, [] => []
  | seen, p :: rest =>
    if p ∈ seen then dedupSeen seen rest else p :: dedupSeen (p :: seen) rest

/-- First-occurrence-wins deduplication of a path list. -/
def dedupFirstWins (l : List FsPath) : List FsPath := dedupSeen [] l

/-- The file system contents, path to text. The one binary artifact
(`libmoonbitrun.o`) is carried in the same map (its bytes stand in as an
opaque string). -/
abbrev FS := FsPath → String

/-- Point update of the file system: `path.write_text(v)`. -/
def updateFS (fs : FS) (p : FsPath) (v : String) : FS :=
  fun q => if q = p then v else fs q

/-- Model of `is_dsl_format` (lines 352-354). -/
def is_dsl_format (p : FsPath) : Bool := pathName p = "moon.pkg"

/-- Result of the patch-and-write loop in `main`'s `try` block
(lines 456-465): the first error (if any), the file system afterwards,
and the targets written, in order. -/
structure PatchOut where
  err : Option String
  fs : FS
  writes : List FsPath

/-- The patch-and-write loop of `main` (lines 456-465): per target,
classify, route by format to `patch_dsl_file` or `patch_json_file`, and
write the patched text; an exception stops the loop. -/
def patchPhase (isEntry : FsPath → Bool) (flags : FlagSet) :
    List FsPath → FS → PatchOut
  | [], fs => ⟨none, fs, []⟩
  | p :: rest, fs =>
    let text := fs p
    let patchedE :=
      if is_dsl_format p then patch_dsl_file text flags (isEntry p)
      else patch_json_file text (pathStr p) flags (isEntry p)
    match patchedE with
    | .error e => ⟨some e, fs, []⟩
    | .ok patched =>
      let out := patchPhase isEntry flags rest (updateFS fs p patched)
      ⟨out.err, out.fs, p :: out.writes⟩

/-- Result of the restore phase: the file system afterwards, the first
write error (if any), and the targets written, in order. -/
structure RestoreOut where
  fs : FS
  err : Option String
  writes : List FsPath

/-- The `finally` block of `main` (lines 473-480): write every snapshot
back in order, then restore the mimalloc backup. A raising write is
modelled by the `wfail` predicate; it ends the loop at once, exactly as
an uncaught exception would. -/
def restoreFinally (snapshots : List (FsPath × String))
    (backup : Option (FsPath × String)) (wfail : FsPath → Bool) (fs : FS) : RestoreOut :=
  match snapshots with
  | [] =>
    match backup with
    | none => ⟨fs, none, []⟩
    | some (mp, ob) =>
      if wfail mp then ⟨fs, some ("write failed: " ++ pathStr mp), []⟩
      else ⟨updateFS fs mp ob, none, [mp]⟩
  | (p, s) :: rest =>
    if wfail p then ⟨fs, some ("write failed: " ++ pathStr p), []⟩
    else
      let out := restoreFinally rest backup wfail (updateFS fs p s)
      ⟨out.fs, out.err, p :: out.writes⟩

/-- The payload of the dummy object the external compiler produces; its
actual bytes are irrelevant to the transaction. -/
def dummyObjContent : String := "<empty object file>"

/-- The mimalloc-disable step of `main` (lines 439-441) and
`disable_mimalloc` (lines 129-165): when enabled and `libmoonbitrun.o` is
found at `mimRun`, read its content as the backup and overwrite it with
the freshly compiled dummy object `dummyObj`. The external compiler call
is assumed to succeed. -/
def mimallocStep (fs0 : FS) (mimRun : Option FsPath) (noDisable : Bool) :
    Option (FsPath × String) × FS :=
  if noDisable then (none, fs0)
  else
    match mimRun with
    | none => (none, fs0)
    | some mp => (some (mp, fs0 mp), updateFS fs0 mp dummyObjContent)

/-- Outcome of one run of `main`: the reported process outcome (runner
exit status on the success path, otherwise the fatal error), the final
file system, and the write traces of the two phases. -/
structure RunResult where
  outcome : Except String Int
  fs : FS
  patchWrites : List FsPath
  restoreWrites : List FsPath

/-- The snapshot-patch-run-restore body of `main` (lines 431-480):
snapshot every target, disable mimalloc, patch and write every target,
invoke the runner (its exit status is the opaque `runnerExit`), and
restore every snapshot in the `finally` block. An error raised in the
protected phase is caught only after the restore loop runs; an error
raised by a restore write replaces the outcome. -/
def runAsanBody (isEntry : FsPath → Bool) (fs0 : FS) (flags : FlagSet)
    (runnerExit : Int) (mimRun : Option FsPath) (noDisable : Bool)
    (wfail : FsPath → Bool) (paths : List FsPath) : RunResult :=
  let snapshots := paths.map fun p => (p, fs0 p)
  let bk := mimallocStep fs0 mimRun noDisable
  let pr := patchPhase isEntry flags paths bk.2
  let rr := restoreFinally snapshots bk.1 wfail pr.fs
  let outcome : Except String Int :=
    match rr.err with
    | some e => .error e
    | none =>
      match pr.err with
      | some e => .error e
      | none => .ok runnerExit
  ⟨outcome, rr.fs, pr.writes, rr.writes⟩

/-- Model of `main` (lines 375-480) from argument resolution onward:
resolve and deduplicate the `--pkg` arguments (any failure exits before
any file is touched), reject an empty target list, then run the
transaction body. -/
def runAsanMain (isFile isEntry : FsPath → Bool) (fs0 : FS) (root : FsPath)
    (args : List PkgArg) (flags : FlagSet) (runnerExit : Int)
    (mimRun : Option FsPath) (noDisable : Bool) (wfail : FsPath → Bool) : RunResult :=
  match collect_pkg_paths isFile root args with
  | .error e => ⟨.error e, fs0, [], []⟩
  | .ok paths =>
    if paths.isEmpty then
      ⟨.error "No --pkg arguments provided. Specify at least one moon.pkg or moon.pkg.json.", fs0, [], []⟩
    else
      runAsanBody isEntry fs0 flags runnerExit mimRun noDisable wfail paths

/-!
Concrete fixtures used by the claim theorems, witnesses and
counterexamples, plus small extraction helpers for stating properties of
patched documents.
-/

/-- Extract `link.native.stub-cc-flags` from a patched root document when
it is a string. -/
def stubStrOf (root : List (String × JVal)) : Option String :=
  match dget? root "link" with
  | some (.obj l) =>
    match dget? l "native" with
    | some (.obj n) =>
      match dget? n "stub-cc-flags" with
      | some (.str s) => some s
      | _ => none
    | _ => none
  | _ => none

/-- The flag set `linux_flags` produces after `main` pops `detect_leaks`
(line 84 with line 425). -/
def linuxFlags : FlagSet := [("cc-flags", ASAN_COMPILE_FLAGS)]

/-- The flag set `windows_flags` produces after `main` pops
`detect_leaks` (lines 87-92 with line 425). -/
def windowsFlags : FlagSet :=
  [("cc-flags", "/Z7 /fsanitize=address"), ("stub-cc-flags", "/Z7 /fsanitize=address")]

/-- Free-text scenario input from the spec: a `native` block with an
existing `stub-cc-flags` value `-I./inc`. -/
def stubX : String :=
  "\x7b \"link\": \x7b \"native\": \x7b \"stub-cc-flags\": \"-I./inc\" \x7d \x7d \x7d"

/-- The patched form of `stubX`: the sanitizer flags are appended after a
separating space. -/
def stubY : String :=
  "\x7b \"link\": \x7b \"native\": \x7b \"stub-cc-flags\": \"-I./inc -g -fsanitize=address -fno-omit-frame-pointer\" \x7d \x7d \x7d"

/-- The `native` content for the append scenario of the spec. -/
def stubNf : List (String × JVal) := [("stub-cc-flags", .str "-I/inc -DFOO")]

/-- Structured document for the append scenario of the spec. -/
def stubDoc : List (String × JVal) := [("link", .obj [("native", .obj stubNf)])]

/-- The structured scenario input of the spec:
`{"link":{"native":{"cc-flags":"-O2"}}}`. -/
def scenarioDoc : List (String × JVal) :=
  [("link", .obj [("native", .obj [("cc-flags", .str "-O2")])])]

/-- The FlagSet of the structured scenario: `{cc-flags: "-g -fsanitize=address"}`. -/
def scenarioFlags : FlagSet := [("cc-flags", "-g -fsanitize=address")]

/-- The output the claim expects for the structured scenario (no other
keys beside `cc-flags`). -/
def scenarioClaimed : List (String × JVal) :=
  [("link", .obj [("native", .obj [("cc-flags", .str "-g -fsanitize=address")])])]

/-- The output the code actually produces for the structured scenario:
`stub-cc-flags` is always patched as well. -/
def scenarioActual : List (String × JVal) :=
  [("link", .obj [("native", .obj
    [("cc-flags", .str "-g -fsanitize=address"),
     ("stub-cc-flags", .str ASAN_COMPILE_FLAGS)])])]

/-- A text with a `native` block containing a nested object: the span
must end at the outer closing brace. -/
def nestedNative : String :=
  "\"native\": \x7b \"inner\": \x7b \"x\": \"y\" \x7d, \"z\": \"w\" \x7d tail"

/-- A text whose `native` block is opened but never closed. -/
def unbalancedNative : String := "\"native\": \x7b \"a\": \"b\","

/-- Repository root of the concrete run. -/
def rootC : FsPath := ["r"]

/-- The structured-format target of the concrete run. -/
def jsonPathC : FsPath := ["r", "a", "moon.pkg.json"]

/-- The free-text target of the concrete run. -/
def dslPathC : FsPath := ["r", "b", "moon.pkg"]

/-- Location of `libmoonbitrun.o` in the concrete run. -/
def mimPathC : FsPath := ["m", "libmoonbitrun.o"]

/-- Initial file contents of the concrete run. -/
def fs0C : FS := fun p =>
  if p = jsonPathC then "\x7b\"link\": \x7b\"native\": \x7b\x7d\x7d\x7d\n"
  else if p = dslPathC then
    "\x7b\n  \"link\": \x7b\n    \"native\": \x7b\n      \"cc\": \"gcc\"\n    \x7d\n  \x7d\n\x7d\n"
  else if p = mimPathC then "<mimalloc object>"
  else ""

/-- Regular files present in the concrete run. -/
def isFileC : FsPath → Bool := fun p => p = jsonPathC || p = dslPathC

/-- The package `a` requested by its free-text alias. -/
def argA : PkgArg := ⟨false, ["a", "moon.pkg"]⟩

/-- The package `a` requested by its structured alias. -/
def argAj : PkgArg := ⟨false, ["a", "moon.pkg.json"]⟩

/-- The package `b` requested by its free-text name. -/
def argB : PkgArg := ⟨false, ["b", "moon.pkg"]⟩

/-- The concrete run: package `a` requested through both aliases,
package `b` once; Linux flags; runner exits 0; mimalloc disabling
enabled; no write failures. -/
def runC : RunResult :=
  runAsanMain isFileC (fun _ => false) fs0C rootC [argA, argAj, argB] linuxFlags 0
    (some mimPathC) false (fun _ => false)

/-- Snapshot list for the restore-failure fixture. -/
def snapsC : List (FsPath × String) := [(["a"], "s1"), (["b"], "s2")]

/-- Restore-failure predicate: the write to `["a"]` raises. -/
def wfailC : FsPath → Bool := fun p => if p = (["a"] : FsPath) then true else false

/-- File system at the start of the restore phase in the restore-failure
fixture: both targets patched, the artifact replaced by the dummy. -/
def fsPatchedC : FS := fun p =>
  if p = (["a"] : FsPath) then "patched1"
  else if p = (["b"] : FsPath) then "patched2"
  else if p = (["m"] : FsPath) then "dummy"
  else ""

/-- A minimal text with an empty `native` block: the closing brace sits
at offset 11 and the locator returns 12 as the span end. -/
def braceNative : String := "\"native\": \x7b\x7d"

/-- An identifier whose basename is generic (neither concrete filename). -/
def argFoo : PkgArg := ⟨false, ["foo"]⟩

theorem updateFS_self (fs : FS) (p : FsPath) (v : String) : updateFS fs p v p = v := by
  simp [updateFS]

theorem updateFS_ne (fs : FS) (p q : FsPath) (v : String) (h : q ≠ p) :
    updateFS fs p v q = fs q := by
  simp [updateFS, h]

theorem dget?_dset_self (l : List (String × JVal)) (k : String) (v : JVal) :
    dget? (dset l k v) k = some v := by
  induction l with
  | nil => simp [dset, dget?]
  | cons hd tl ih =>
    by_cases h : hd.1 = k
    · simp [dset, dget?, h]
    · cases hd with
      | mk k' v' =>
        simp only at h
        simp [dset, dget?, h, ih]

theorem dget?_dset_ne (l : List (String × JVal)) (k k' : String) (v : JVal)
    (h : k' ≠ k) : dget? (dset l k v) k' = dget? l k' := by
  induction l with
  | nil => simp [dset, dget?, Ne.symm h]
  | cons hd tl ih =>
    cases hd with
    | mk k0 v0 =>
      by_cases h0 : k0 = k
      · subst h0
        simp [dset, dget?, Ne.symm h]
      · simp only [dset, if_neg h0]
        by_cases h1 : k0 = k'
        · simp [dget?, h1]
        · simp [dget?, h1, ih]

theorem restoreFinally_not_mem (backup : Option (FsPath × String)) (p : FsPath)
    (v : String) (hb : ∀ mp ob, backup = some (mp, ob) → mp = p → ob = v) :
    ∀ (l : List (FsPath × String)) (fs : FS), p ∉ l.map Prod.fst → fs p = v →
      (restoreFinally l backup (fun _ => false) fs).fs p = v := by
  intro l
  induction l with
  | nil =>
    intro fs _ hfs
    cases backup with
    | none => simpa [restoreFinally] using hfs
    | some b =>
      obtain ⟨mp, ob⟩ := b
      by_cases hmp : mp = p
      · simp [restoreFinally, updateFS, hmp, hb mp ob rfl hmp]
      · have hmp' : ¬(p = mp) := fun h => hmp h.symm
        simp [restoreFinally, updateFS, hmp', hfs]
  | cons q rest ih =>
    intro fs hl hfs
    have hq : q.1 ≠ p := by
      intro h
      exact hl (by simp [h.symm])
    have hrest : p ∉ rest.map Prod.fst := by
      intro h
      exact hl (by simp [h])
    have hup : updateFS fs q.1 q.2 p = v := by
      rw [updateFS_ne _ _ _ _ (fun h => hq h.symm)]
      exact hfs
    simpa [restoreFinally] using ih (updateFS fs q.1 q.2) hrest hup

theorem restoreFinally_mem (backup : Option (FsPath × String)) (p : FsPath)
    (v : String) (hb : ∀ mp ob, backup = some (mp, ob) → mp = p → ob = v) :
    ∀ (l : List (FsPath × String)) (fs : FS),
      (∀ a b, (a, b) ∈ l → a = p → b = v) → p ∈ l.map Prod.fst →
      (restoreFinally l backup (fun _ => false) fs).fs p = v := by
  intro l
  induction l with
  | nil =>
    intro fs _ hm
    simp at hm
  | cons q rest ih =>
    intro fs hl hm
    by_cases hr : p ∈ rest.map Prod.fst
    · have hl' : ∀ a b, (a, b) ∈ rest → a = p → b = v := by
        intro a b hab
        exact hl a b (by simp [hab])
      simpa [restoreFinally] using ih (updateFS fs q.1 q.2) hl' hr
    · have hq : q.1 = p := by
        rcases List.mem_map.mp hm with ⟨x, hx, hfst⟩
        rcases List.mem_cons.mp hx with h | h
        · rw [h] at hfst
          exact hfst
        · exact absurd (List.mem_map.mpr ⟨x, h, hfst⟩) hr
      have hv : q.2 = v := hl q.1 q.2 (by simp) hq
      have hup : updateFS fs q.1 q.2 p = v := by
        rw [← hq, updateFS_self]
        exact hv
      simpa [restoreFinally] using
        restoreFinally_not_mem backup p v hb rest (updateFS fs q.1 q.2) hr hup

theorem foldl_updateFS_not_mem (p : FsPath) :
    ∀ (l : List (FsPath × String)) (fs : FS), p ∉ l.map Prod.fst →
      (l.foldl (fun f x => updateFS f x.1 x.2) fs) p = fs p := by
  intro l
  induction l with
  | nil =>
    intro fs _
    rfl
  | cons q rest ih =>
    intro fs h
    have hq : q.1 ≠ p := fun hh => h (by simp [hh.symm])
    have hr : p ∉ rest.map Prod.fst := fun hh => h (by simp [hh])
    rw [List.foldl_cons, ih _ hr, updateFS_ne _ _ _ _ (fun hh => hq hh.symm)]

theorem restoreFinally_stops_at_failure (q : FsPath × String)
    (l2 : List (FsPath × String)) (backup : Option (FsPath × String))
    (wfail : FsPath → Bool) (hq : wfail q.1 = true) :
    ∀ (l1 : List (FsPath × String)) (fs : FS), (∀ x ∈ l1, wfail x.1 = false) →
      restoreFinally (l1 ++ q :: l2) backup wfail fs =
        ⟨l1.foldl (fun f x => updateFS f x.1 x.2) fs,
         some ("write failed: " ++ pathStr q.1), l1.map Prod.fst⟩ := by
  intro l1
  induction l1 with
  | nil =>
    intro fs _
    simp [restoreFinally, hq]
  | cons x rest ih =>
    intro fs h1
    have hx : wfail x.1 = false := h1 x (by simp)
    have hrest : ∀ y ∈ rest, wfail y.1 = false := fun y hy => h1 y (by simp [hy])
    simp [restoreFinally, hx, ih (updateFS fs x.1 x.2) hrest]

theorem scanBlock_zero (cs : List Char) (pos : Nat) : scanBlock cs 0 pos = pos := by
  cases cs <;> simp [scanBlock]

theorem scanBlock_spec (i : Nat) : ∀ (cs : List Char) (d pos : Nat),
    (∀ j, j ≤ i → 0 < (cs.take j).foldl braceStep d) →
    ((cs.take (i + 1)).foldl braceStep d) = 0 →
    i < cs.length →
    scanBlock cs d pos = pos + i + 1 := by
  induction i with
  | zero =>
    intro cs d pos hpos hz hlen
    match cs with
    | c :: rest =>
      have hd : 0 < d := by simpa using hpos 0 (by omega)
      have hz' : braceStep d c = 0 := by simpa using hz
      rw [scanBlock, if_neg (by omega), hz', scanBlock_zero]
  | succ i ih =>
    intro cs d pos hpos hz hlen
    match cs with
    | c :: rest =>
      have hd : 0 < d := by simpa using hpos 0 (by omega)
      have hpos' : ∀ j, j ≤ i → 0 < (rest.take j).foldl braceStep (braceStep d c) := by
        intro j hj
        have := hpos (j + 1) (by omega)
        simpa [List.take_succ_cons] using this
      have hz' : (rest.take (i + 1)).foldl braceStep (braceStep d c) = 0 := by
        simpa [List.take_succ_cons] using hz
      have hlen' : i < rest.length := by simpa using hlen
      rw [scanBlock, if_neg (by omega), ih rest (braceStep d c) (pos + 1) hpos' hz' hlen']
      omega

theorem scanBlock_no_zero : ∀ (cs : List Char) (d pos : Nat),
    (∀ j, j ≤ cs.length → 0 < (cs.take j).foldl braceStep d) →
    scanBlock cs d pos = pos + cs.length := by
  intro cs
  induction cs with
  | nil => intro d pos _; simp [scanBlock]
  | cons c rest ih =>
    intro d pos hpos
    have hd : 0 < d := by simpa using hpos 0 (by omega)
    have hpos' : ∀ j, j ≤ rest.length → 0 < (rest.take j).foldl braceStep (braceStep d c) := by
      intro j hj
      have := hpos (j + 1) (by simpa using hj)
      simpa [List.take_succ_cons] using this
    rw [scanBlock, if_neg (by omega), ih (braceStep d c) (pos + 1) hpos']
    simp
    omega

theorem close_char (cs : List Char) (i d : Nat)
    (hpos : 0 < (cs.take i).foldl braceStep d)
    (hz : (cs.take (i + 1)).foldl braceStep d = 0)
    (hlen : i < cs.length) :
    cs[i]? = some '\x7d' := by
  obtain ⟨c, hc⟩ : ∃ c, cs[i]? = some c :=
    ⟨cs.get ⟨i, hlen⟩, List.getElem?_eq_getElem hlen⟩
  have hstep : (cs.take (i + 1)).foldl braceStep d =
      braceStep ((cs.take i).foldl braceStep d) c := by
    rw [List.take_succ, hc]
    simp
  rw [hstep] at hz
  by_cases h1 : c = '\x7b'
  · rw [h1] at hz
    simp [braceStep] at hz
  · by_cases h2 : c = '\x7d'
    · rw [h2] at hc
      exact hc
    · simp [braceStep, h1, h2] at hz
      omega

theorem findNativeOpen_none_iff : ∀ (cs : List Char) (pos : Nat),
    findNativeOpen cs pos = none ↔ ∀ k, matchNativeOpen (cs.drop k) = none := by
  intro cs
  induction cs with
  | nil =>
    intro pos
    constructor
    · intro _ k
      simp [List.drop_nil, matchNativeOpen, stripLit]
    · intro _
      rfl
  | cons c rest ih =>
    intro pos
    cases h : matchNativeOpen (c :: rest) with
    | some k =>
      constructor
      · intro habs
        rw [findNativeOpen, h] at habs
        exact Option.noConfusion habs
      · intro hall
        have := hall 0
        rw [List.drop_zero] at this
        rw [h] at this
        exact Option.noConfusion this
    | none =>
      rw [findNativeOpen, h]
      rw [ih (pos + 1)]
      constructor
      · intro hall k
        cases k with
        | zero => simpa using h
        | succ k => simpa using hall k
      · intro hall k
        simpa using hall (k + 1)

theorem stripLit_length : ∀ (l cs rem : List Char), stripLit l cs = some rem →
    cs.length = l.length + rem.length := by
  intro l
  induction l with
  | nil =>
    intro cs rem h
    simp only [stripLit, Option.some.injEq] at h
    simp [← h]
  | cons x ls ih =>
    intro cs rem h
    cases cs with
    | nil => simp [stripLit] at h
    | cons c cs' =>
      simp only [stripLit] at h
      by_cases hcx : c = x
      · rw [if_pos hcx] at h
        have := ih cs' rem h
        simp [this]
        omega
      · rw [if_neg hcx] at h
        exact Option.noConfusion h

theorem spanWs_length : ∀ cs : List Char,
    (spanWs cs).1.length + (spanWs cs).2.length = cs.length := by
  intro cs
  induction cs with
  | nil => rfl
  | cons c rest ih =>
    rcases hsp : spanWs rest with ⟨w, r⟩
    rw [hsp] at ih
    by_cases h : pyWs c
    · simp only [spanWs, h, if_true, hsp]
      simp at ih ⊢
      omega
    · simp [spanWs, h]

theorem expectChar_length (c : Char) : ∀ (cs rem : List Char),
    expectChar c cs = some rem → cs.length = rem.length + 1 := by
  intro cs rem h
  cases cs with
  | nil => exact Option.noConfusion h
  | cons x rest =>
    simp only [expectChar] at h
    by_cases hx : x = c
    · rw [if_pos hx] at h
      simp [← Option.some.inj h]
    · rw [if_neg hx] at h
      exact Option.noConfusion h

/-- Claim C6 counterexample (the claim as stated is false): on the
structured scenario input `{"link":{"native":{"cc-flags":"-O2"}}}` with
entry role and FlagSet `{cc-flags: "-g -fsanitize=address"}`, the output
is not the claimed document: the patcher always sets `stub-cc-flags` as
well, so a key beyond `cc-flags` does appear. -/
theorem claim_C6_cex :
    patch_link_native_json scenarioDoc scenarioFlags "pkg/moon.pkg.json" true
      ≠ .ok scenarioClaimed ∧
    Except.map stubStrOf
      (patch_link_native_json scenarioDoc scenarioFlags "pkg/moon.pkg.json" true)
      = .ok (some ASAN_COMPILE_FLAGS) := by
  constructor
  · intro h
    have h2 := congrArg (Except.map stubStrOf) h
    rw [show Except.map stubStrOf
        (patch_link_native_json scenarioDoc scenarioFlags "pkg/moon.pkg.json" true)
        = .ok (some ASAN_COMPILE_FLAGS) from rfl] at h2
    rw [show Except.map stubStrOf
        (Except.ok scenarioClaimed : Except String (List (String × JVal)))
        = .ok none from rfl] at h2
    exact Option.noConfusion (Except.ok.inj h2)
  · rfl

/-- Claim C6, amended: for the structured patcher applied to
`{"link":{"native":{"cc-flags":"-O2"}}}` with entry role true and FlagSet
`{cc-flags: "-g -fsanitize=address"}`, the output document is exactly
`{"link":{"native":{"cc-flags":"-g -fsanitize=address","stub-cc-flags":
"-g -fsanitize=address -fno-omit-frame-pointer"}}}`: the requested
`cc-flags` value plus the always-patched `stub-cc-flags` entry, and no
other keys. -/
theorem claim_C6 :
    patch_link_native_json scenarioDoc scenarioFlags "pkg/moon.pkg.json" true
      = .ok scenarioActual := by
  rfl

/-- Claim C5 counterexample (the claim as stated is false): the appended
sanitizer flags are `-g -fsanitize=address -fno-omit-frame-pointer`, so
the structured input with existing value `-I/inc -DFOO` does not yield
exactly `-I/inc -DFOO -g -fsanitize=address`, and the free-text scenario
line does not read exactly `"stub-cc-flags": "-I./inc -g
-fsanitize=address"`. -/
theorem claim_C5_cex :
    Except.map stubStrOf (patch_link_native_json stubDoc linuxFlags "p" true)
      = .ok (some "-I/inc -DFOO -g -fsanitize=address -fno-omit-frame-pointer") ∧
    ("-I/inc -DFOO -g -fsanitize=address -fno-omit-frame-pointer" : String)
      ≠ "-I/inc -DFOO -g -fsanitize=address" ∧
    patch_dsl_file stubX linuxFlags false = .ok stubY ∧
    searchKeyAssign "stub-cc-flags" stubY.data
      = some "-I./inc -g -fsanitize=address -fno-omit-frame-pointer" ∧
    ("-I./inc -g -fsanitize=address -fno-omit-frame-pointer" : String)
      ≠ "-I./inc -g -fsanitize=address" := by
  exact ⟨rfl, by decide, rfl, rfl, by decide⟩

/-- Claim C5, amended: when `stub-cc-flags` has an existing non-empty
value and the FlagSet supplies no full override, patching appends the
sanitizer flags `-g -fsanitize=address -fno-omit-frame-pointer` after the
existing value with a separating space: the structured input with
existing value `-I/inc -DFOO` yields exactly `-I/inc -DFOO -g
-fsanitize=address -fno-omit-frame-pointer`, and the free-text input
containing `"stub-cc-flags": "-I./inc"` yields a line reading exactly
`"stub-cc-flags": "-I./inc -g -fsanitize=address
-fno-omit-frame-pointer"`; when a full override is supplied, the prior
value is discarded entirely. -/
theorem claim_C5 :
    (∀ (nf : List (String × JVal)) (flags : FlagSet) (path : String) (entry : Bool)
       (e : String),
       dget? nf "stub-cc-flags" = some (.str e) → e ≠ "" →
       FlagSet.get? flags "stub-cc-flags" = none →
       Except.map stubStrOf
         (patch_link_native_json [("link", .obj [("native", .obj nf)])] flags path entry)
         = .ok (some (e ++ " " ++ ASAN_COMPILE_FLAGS))) ∧
    (∀ (nf : List (String × JVal)) (flags : FlagSet) (path : String) (entry : Bool)
       (v : String),
       FlagSet.get? flags "stub-cc-flags" = some v →
       Except.map stubStrOf
         (patch_link_native_json [("link", .obj [("native", .obj nf)])] flags path entry)
         = .ok (some v)) ∧
    patch_dsl_file stubX linuxFlags false = .ok stubY ∧
    searchKeyAssign "stub-cc-flags" stubY.data
      = some "-I./inc -g -fsanitize=address -fno-omit-frame-pointer" := by
  refine ⟨?_, ?_, rfl, rfl⟩
  · intro nf flags path entry e hstub he hflags
    have hbeq : (e == "") = false := by
      simpa using he
    simp only [patch_link_native_json, dget?, reduceIte, hflags]
    rcases entry with _ | _ <;> rcases hcc : FlagSet.get? flags "cc-flags" with _ | vcc <;>
      simp only [] <;>
      simp [hstub, dget?_dset_ne _ _ _ _ (by decide : ("stub-cc-flags" : String) ≠ "cc-flags"),
        jTruthy, hbeq, Except.map, stubStrOf, dget?_dset_self, dget?_dset_ne]
  · intro nf flags path entry v hflags
    simp only [patch_link_native_json, dget?, reduceIte, hflags]
    rcases entry with _ | _ <;> rcases hcc : FlagSet.get? flags "cc-flags" with _ | vcc <;>
      simp [Except.map, stubStrOf, dget?_dset_self, dget?_dset_ne]

/-- Claim C5 witness: the two quantified parts of the amended claim
instantiated at the structured append scenario (Linux flags, no
override) and at the Windows override flags. -/
theorem claim_C5_witness :
    Except.map stubStrOf (patch_link_native_json stubDoc linuxFlags "p" true)
      = .ok (some ("-I/inc -DFOO" ++ " " ++ ASAN_COMPILE_FLAGS)) ∧
    Except.map stubStrOf (patch_link_native_json stubDoc windowsFlags "p" true)
      = .ok (some "/Z7 /fsanitize=address") := by
  constructor
  · exact claim_C5.1 stubNf linuxFlags "p" true "-I/inc -DFOO" rfl (by decide) rfl
  · exact claim_C5.2.1 stubNf windowsFlags "p" true "/Z7 /fsanitize=address" rfl

/-- Claim C3 counterexample (the claim as stated is false): with two
snapshotted targets and a mimalloc backup, if the restore write of the
first target raises, no further restore is attempted: the write trace is
empty, the second target keeps its patched content, and the phase ends
with the error. -/
theorem claim_C3_cex :
    (restoreFinally snapsC (some (["m"], "orig")) wfailC fsPatchedC).writes = [] ∧
    (restoreFinally snapsC (some (["m"], "orig")) wfailC fsPatchedC).fs ["b"] = "patched2" ∧
    ("patched2" : String) ≠ "s2" ∧
    (restoreFinally snapsC (some (["m"], "orig")) wfailC fsPatchedC).fs ["m"] = "dummy" ∧
    (restoreFinally snapsC (some (["m"], "orig")) wfailC fsPatchedC).err
      = some "write failed: a" := by
  exact ⟨rfl, rfl, by decide, rfl, rfl⟩

/-- Claim C3, amended: the restore phase is not independent per target.
Restoration is attempted in snapshot order and stops at the first failing
write: the targets before the failing one are restored (and are the only
writes attempted), while the failing target, every later target, and the
binary artifact are left untouched, and the failure is reported. -/
theorem claim_C3 (q : FsPath × String) (l1 l2 : List (FsPath × String))
    (backup : Option (FsPath × String)) (wfail : FsPath → Bool) (fs : FS)
    (hq : wfail q.1 = true) (h1 : ∀ x ∈ l1, wfail x.1 = false) :
    restoreFinally (l1 ++ q :: l2) backup wfail fs =
      ⟨l1.foldl (fun f x => updateFS f x.1 x.2) fs,
       some ("write failed: " ++ pathStr q.1), l1.map Prod.fst⟩ ∧
    ∀ p, p ∉ l1.map Prod.fst →
      (restoreFinally (l1 ++ q :: l2) backup wfail fs).fs p = fs p := by
  constructor
  · exact restoreFinally_stops_at_failure q l2 backup wfail hq l1 fs h1
  · intro p hp
    rw [restoreFinally_stops_at_failure q l2 backup wfail hq l1 fs h1]
    exact foldl_updateFS_not_mem p l1 fs hp

/-- Claim C3 witness: the amended claim instantiated at the concrete
restore-failure fixture (failure on the very first target). -/
theorem claim_C3_witness :
    restoreFinally snapsC (some (["m"], "orig")) wfailC fsPatchedC =
      ⟨fsPatchedC, some ("write failed: " ++ pathStr ["a"]), []⟩ ∧
    (restoreFinally snapsC (some (["m"], "orig")) wfailC fsPatchedC).fs ["b"]
      = fsPatchedC ["b"] := by
  have h := claim_C3 (["a"], "s1") [] [(["b"], "s2")] (some (["m"], "orig"))
    wfailC fsPatchedC rfl (by simp)
  exact ⟨h.1, h.2 ["b"] (by simp)⟩




theorem matchNativeOpen_le (cs : List Char) (k : Nat)
    (h : matchNativeOpen cs = some k) : k ≤ cs.length := by
  rw [matchNativeOpen] at h
  cases h1 : stripLit ("\"native\"".data) cs with
  | none =>
    simp only [h1] at h
    exact Option.noConfusion h
  | some rem1 =>
    simp only [h1] at h
    rcases hsp1 : spanWs rem1 with ⟨w1, rem2⟩
    simp only [hsp1] at h
    cases h2 : expectChar ':' rem2 with
    | none =>
      simp only [h2] at h
      exact Option.noConfusion h
    | some rem3 =>
      simp only [h2] at h
      rcases hsp2 : spanWs rem3 with ⟨w2, rem4⟩
      simp only [hsp2] at h
      cases h3 : expectChar '\x7b' rem4 with
      | none =>
        simp only [h3] at h
        exact Option.noConfusion h
      | some rem5 =>
        simp only [h3, Option.some.injEq] at h
        have hk := h
        have e1 := stripLit_length _ _ _ h1
        have e2 := spanWs_length rem1
        rw [hsp1] at e2
        have e3 := expectChar_length ':' rem2 rem3 h2
        have e4 := spanWs_length rem3
        rw [hsp2] at e4
        have e5 := expectChar_length '\x7b' rem4 rem5 h3
        have e0 : ("\"native\"".data).length = 8 := rfl
        simp only at e2 e4
        omega

theorem findNativeOpen_le : ∀ (cs : List Char) (pos r : Nat),
    findNativeOpen cs pos = some r → r ≤ pos + cs.length := by
  intro cs
  induction cs with
  | nil =>
    intro pos r h
    exact Option.noConfusion h
  | cons c rest ih =>
    intro pos r h
    rw [findNativeOpen] at h
    cases hm : matchNativeOpen (c :: rest) with
    | some k =>
      rw [hm] at h
      have hk := matchNativeOpen_le (c :: rest) k hm
      simp at hk
      rw [← Option.some.inj h]
      simp
      omega
    | none =>
      rw [hm] at h
      have := ih (pos + 1) r h
      simp
      omega

theorem resolveFrom_eq_find (isFile : FsPath → Bool) : ∀ l : List FsPath,
    resolveFrom isFile l = l.find? isFile := by
  intro l
  induction l with
  | nil => rfl
  | cons c rest ih =>
    by_cases h : isFile c
    · simp [resolveFrom, h, List.find?_cons_of_pos]
    · simp only [resolveFrom, if_neg h, ih]
      rw [List.find?_cons_of_neg]
      simpa using h

theorem dedupSeen_sublist : ∀ (l seen : List FsPath),
    List.Sublist (dedupSeen seen l) l := by
  intro l
  induction l with
  | nil =>
    intro seen
    simp [dedupSeen]
  | cons p rest ih =>
    intro seen
    by_cases h : p ∈ seen
    · simp only [dedupSeen, if_pos h]
      exact List.Sublist.cons p (ih seen)
    · simp only [dedupSeen, if_neg h]
      exact List.Sublist.cons₂ p (ih (p :: seen))

theorem dedupSeen_mem : ∀ (l seen : List FsPath) (x : FsPath),
    x ∈ dedupSeen seen l ↔ x ∈ l ∧ x ∉ seen := by
  intro l
  induction l with
  | nil =>
    intro seen x
    simp [dedupSeen]
  | cons p rest ih =>
    intro seen x
    by_cases h : p ∈ seen
    · rw [dedupSeen, if_pos h, ih]
      constructor
      · rintro ⟨hx, hs⟩
        exact ⟨by simp [hx], hs⟩
      · rintro ⟨hx, hs⟩
        rcases List.mem_cons.mp hx with rfl | hx
        · exact absurd h hs
        · exact ⟨hx, hs⟩
    · rw [dedupSeen, if_neg h]
      constructor
      · intro hx
        rcases List.mem_cons.mp hx with rfl | hx
        · exact ⟨by simp, h⟩
        · have := (ih (p :: seen) x).mp hx
          refine ⟨by simp [this.1], ?_⟩
          intro hs
          exact this.2 (by simp [hs])
      · rintro ⟨hx, hs⟩
        rcases List.mem_cons.mp hx with rfl | hx
        · simp
        · by_cases hxp : x = p
          · simp [hxp]
          · refine List.mem_cons.mpr (Or.inr ((ih (p :: seen) x).mpr ⟨hx, ?_⟩))
            intro hmem
            rcases List.mem_cons.mp hmem with h' | h'
            · exact hxp h'
            · exact hs h'

theorem dedupSeen_nodup : ∀ (l seen : List FsPath), (dedupSeen seen l).Nodup := by
  intro l
  induction l with
  | nil =>
    intro seen
    simp [dedupSeen]
  | cons p rest ih =>
    intro seen
    by_cases h : p ∈ seen
    · rw [dedupSeen, if_pos h]
      exact ih seen
    · rw [dedupSeen, if_neg h]
      refine List.nodup_cons.mpr ⟨?_, ih (p :: seen)⟩
      intro hmem
      exact ((dedupSeen_mem rest (p :: seen) p).mp hmem).2 (by simp)

theorem collectGo_eq (isFile : FsPath → Bool) (root : FsPath) :
    ∀ (args : List PkgArg) (seen : List FsPath),
      collectGo isFile root args seen =
        match resolveAll isFile root args with
        | .error e => .error e
        | .ok l => .ok (dedupSeen seen l) := by
  intro args
  induction args with
  | nil =>
    intro seen
    rfl
  | cons a rest ih =>
    intro seen
    cases hr : resolve_pkg_path isFile root a with
    | error e => simp [collectGo, resolveAll, hr]
    | ok p =>
      simp only [collectGo, resolveAll, hr]
      cases hrest : resolveAll isFile root rest with
      | error e =>
        by_cases hs : p ∈ seen
        · rw [if_pos hs, ih seen, hrest]
        · rw [if_neg hs, ih (p :: seen), hrest]
      | ok l =>
        by_cases hs : p ∈ seen
        · rw [if_pos hs, ih seen, hrest]
          simp [dedupSeen, hs]
        · rw [if_neg hs, ih (p :: seen), hrest]
          simp [dedupSeen, hs]

/-- Claim C7 counterexample (the claim as stated is false in one detail):
on the text `"native": {}`, the matching closing brace sits at offset 11,
but the locator returns 12 as the second component — the offset one past
the closing brace, not the offset of the closing brace itself. -/
theorem claim_C7_cex :
    find_native_block braceNative = some (11, 12) ∧
    braceNative.data[11]? = some '\x7d' ∧
    find_native_block braceNative ≠ some (11, 11) := by
  exact ⟨rfl, rfl, by decide⟩

/-- Claim C7, amended: for every text in which the quoted-key-colon-brace
pattern for `native` occurs and the braces after it are balanced, the
locator returns the offset just after the opening brace and the offset
one past the matching closing brace found by depth counting (inner
nesting at any depth is skipped, so the position before the returned end
really carries the outer block's closing brace), and it returns not-found
exactly when the opening pattern does not occur anywhere in the text. -/
theorem claim_C7 :
    (∀ (text : String) (s i : Nat),
       findNativeOpen text.data 0 = some s →
       (∀ j, j ≤ i → 0 < ((text.data.drop s).take j).foldl braceStep 1) →
       ((text.data.drop s).take (i + 1)).foldl braceStep 1 = 0 →
       i < (text.data.drop s).length →
       find_native_block text = some (s, s + i + 1) ∧
       text.data[s + i]? = some '\x7d') ∧
    (∀ text : String, find_native_block text = none ↔
       ∀ k, matchNativeOpen (text.data.drop k) = none) := by
  constructor
  · intro text s i hfind hpos hz hlen
    constructor
    · rw [find_native_block, hfind]
      simp only [scanBlock_spec i (text.data.drop s) 1 s hpos hz hlen]
    · have hch := close_char (text.data.drop s) i 1 (hpos i (Nat.le_refl i)) hz hlen
      rwa [List.getElem?_drop] at hch
  · intro text
    rw [find_native_block]
    cases h : findNativeOpen text.data 0 with
    | none =>
      simp only []
      constructor
      · intro _
        exact (findNativeOpen_none_iff text.data 0).mp h
      · intro _
        trivial
    | some s =>
      simp only []
      constructor
      · intro habs
        exact Option.noConfusion habs
      · intro hall
        have := (findNativeOpen_none_iff text.data 0).mpr hall
        rw [h] at this
        exact Option.noConfusion this

/-- Claim C7 witness: the amended claim instantiated on a `native` block
containing a nested inner object — the span ends one past the outer
closing brace at offset 44, not at the inner one. -/
theorem claim_C7_witness :
    find_native_block nestedNative = some (11, 45) ∧
    nestedNative.data[44]? = some '\x7d' := by
  have h := claim_C7.1 nestedNative 11 33 rfl (by decide) (by decide) (by decide)
  exact ⟨h.1, h.2⟩

/-- Claim C10, confirmed: when the `native` opening pattern occurs but the
following braces never close (the depth never returns to zero), the
locator still reports a span, whose end offset is the length of the text;
the free-text patcher therefore treats the block as located and, when the
key has no existing assignment, inserts the new key line immediately
before the final character of the document. -/
theorem claim_C10 (text : String) (s : Nat) (key value : String)
    (hfind : findNativeOpen text.data 0 = some s)
    (hnz : ∀ j, j ≤ (text.data.drop s).length →
      0 < ((text.data.drop s).take j).foldl braceStep 1)
    (hnokey : searchKeyAssign key text.data = none) :
    find_native_block text = some (s, text.data.length) ∧
    replace_or_insert_in_native text key value = .ok
      (String.mk (text.data.take (text.data.length - 1)) ++
       (detect_native_indent text s text.data.length ++ "\"" ++ key ++ "\": \"" ++
         value ++ "\",\n") ++
       String.mk (text.data.drop (text.data.length - 1))) := by
  have hs : s ≤ text.data.length := by
    have := findNativeOpen_le text.data 0 s hfind
    omega
  have hscan : scanBlock (text.data.drop s) 1 s = text.data.length := by
    rw [scanBlock_no_zero (text.data.drop s) 1 s hnz, List.length_drop]
    omega
  have hfb : find_native_block text = some (s, text.data.length) := by
    rw [find_native_block, hfind]
    simp only [hscan]
  refine ⟨hfb, ?_⟩
  rw [replace_or_insert_in_native, hnokey]
  simp only [Option.isSome_none, Bool.false_eq_true, if_false, hfb]

/-- Claim C10 witness: the unbalanced text `"native": { "a": "b",` — the
span ends at the text length 21, and insertion of a fresh key lands just
before the final comma. -/
theorem claim_C10_witness :
    findNativeOpen unbalancedNative.data 0 = some 11 ∧
    searchKeyAssign "k" unbalancedNative.data = none ∧
    find_native_block unbalancedNative = some (11, unbalancedNative.data.length) ∧
    replace_or_insert_in_native unbalancedNative "k" "V" =
      .ok "\"native\": \x7b \"a\": \"b\"      \"k\": \"V\",\n," := by
  have h := claim_C10 unbalancedNative 11 "k" "V" rfl (by decide) rfl
  exact ⟨rfl, rfl, h.1, h.2.trans rfl⟩

/-- Claim C8 counterexample (the claim as stated is false): for the
identifier `foo`, whose basename is generic, the candidate list contains
only the requested path itself — it does not contain both concrete
filenames, and no structured-format variant is tried. -/
theorem claim_C8_cex :
    pkg_candidates rootC argFoo = [["r", "foo"]] ∧
    ¬(∃ c ∈ pkg_candidates rootC argFoo, pathName c = "moon.pkg.json") := by
  exact ⟨rfl, by decide⟩

/-- Claim C8, amended: when the identifier's basename is one of the two
concrete filenames, the candidate list holds both variants anchored at
the same directory, with the structured variant first in both cases; for
any other basename the list holds exactly the requested path. The
resolver returns the first candidate that exists as a regular file, and
when none exists it fails with the message naming every attempted
candidate. -/
theorem claim_C8 :
    (∀ (root : FsPath) (a : PkgArg),
       pathName (pkg_requested root a) = "moon.pkg" →
       pkg_candidates root a =
         [withName (pkg_requested root a) "moon.pkg.json", pkg_requested root a]) ∧
    (∀ (root : FsPath) (a : PkgArg),
       pathName (pkg_requested root a) = "moon.pkg.json" →
       pkg_candidates root a =
         [pkg_requested root a, withName (pkg_requested root a) "moon.pkg"]) ∧
    (∀ (root : FsPath) (a : PkgArg),
       pathName (pkg_requested root a) ≠ "moon.pkg" →
       pathName (pkg_requested root a) ≠ "moon.pkg.json" →
       pkg_candidates root a = [pkg_requested root a]) ∧
    (∀ (isFile : FsPath → Bool) (root : FsPath) (a : PkgArg),
       resolve_pkg_path isFile root a =
         match (pkg_candidates root a).find? isFile with
         | some c => .ok c
         | none => .error (notFoundMsg a (pkg_candidates root a))) := by
  refine ⟨?_, ?_, ?_, ?_⟩
  · intro root a h
    simp [pkg_candidates, h]
  · intro root a h
    rw [pkg_candidates]
    rw [h]
    simp
  · intro root a h1 h2
    simp [pkg_candidates, h1, h2]
  · intro isFile root a
    rw [resolve_pkg_path, resolveFrom_eq_find]

/-- Claim C8 witness: the amended claim instantiated at the free-text
alias of package `a` (both candidates, structured first; the resolver
picks the structured file, which exists) and at the generic identifier. -/
theorem claim_C8_witness :
    pkg_candidates rootC argA = [["r", "a", "moon.pkg.json"], ["r", "a", "moon.pkg"]] ∧
    resolve_pkg_path isFileC rootC argA = .ok jsonPathC ∧
    pkg_candidates rootC argFoo = [["r", "foo"]] := by
  refine ⟨(claim_C8.1 rootC argA rfl).trans rfl,
          (claim_C8.2.2.2 isFileC rootC argA).trans rfl,
          (claim_C8.2.2.1 rootC argFoo (by decide) (by decide)).trans rfl⟩

/-- Claim C9, confirmed: the target list produced by `main` equals the
per-argument resolutions deduplicated first-occurrence-wins; the
deduplicated list has no duplicates, is a subsequence of the resolution
list (the original ordering is preserved), and keeps exactly the resolved
paths. Concretely, requesting package `a` through both format aliases and
package `b` once resolves to the same file for both aliases, collects it
once, and the run patches it exactly once and restores it exactly once. -/
theorem claim_C9 :
    (∀ (isFile : FsPath → Bool) (root : FsPath) (args : List PkgArg),
       collect_pkg_paths isFile root args =
         match resolveAll isFile root args with
         | .error e => .error e
         | .ok l => .ok (dedupFirstWins l)) ∧
    (∀ l : List FsPath,
       (dedupFirstWins l).Nodup ∧
       List.Sublist (dedupFirstWins l) l ∧
       ∀ x, x ∈ dedupFirstWins l ↔ x ∈ l) ∧
    resolveAll isFileC rootC [argA, argAj, argB]
      = .ok [jsonPathC, jsonPathC, dslPathC] ∧
    collect_pkg_paths isFileC rootC [argA, argAj, argB]
      = .ok [jsonPathC, dslPathC] ∧
    runC.patchWrites.count jsonPathC = 1 ∧
    runC.restoreWrites.count jsonPathC = 1 := by
  refine ⟨?_, ?_, rfl, rfl, by decide, by decide⟩
  · intro isFile root args
    exact collectGo_eq isFile root args []
  · intro l
    refine ⟨dedupSeen_nodup l [], dedupSeen_sublist l [], ?_⟩
    intro x
    rw [dedupFirstWins, dedupSeen_mem]
    simp

/-- Claim C1, confirmed: whenever resolution succeeds (so the snapshot
phase runs), every snapshotted package target has its original content
back on disk when the run completes — for any patch outcome, any runner
exit status, any mimalloc handling, and any mix of structured and
free-text targets — because the `finally` phase writes every snapshot
back (restore writes themselves assumed not to raise). -/
theorem claim_C1 (isFile isEntry : FsPath → Bool) (fs0 : FS) (root : FsPath)
    (args : List PkgArg) (flags : FlagSet) (runnerExit : Int)
    (mimRun : Option FsPath) (noDisable : Bool) (paths : List FsPath) (p : FsPath)
    (hc : collect_pkg_paths isFile root args = .ok paths) (hp : p ∈ paths) :
    (runAsanMain isFile isEntry fs0 root args flags runnerExit mimRun noDisable
      (fun _ => false)).fs p = fs0 p := by
  have hne : paths.isEmpty = false := by
    cases paths with
    | nil => simp at hp
    | cons _ _ => rfl
  rw [runAsanMain]
  simp only [hc, hne, Bool.false_eq_true, if_false]
  rw [runAsanBody]
  apply restoreFinally_mem
  · intro mp ob hbk hmp
    simp only [mimallocStep] at hbk
    split at hbk
    · simp at hbk
    · split at hbk
      · simp at hbk
      · simp at hbk
        rcases hbk with ⟨hmq, hob⟩
        rw [← hob, hmq, hmp]
  · intro a b hab ha
    rcases List.mem_map.mp hab with ⟨x, hx, hxe⟩
    have hb : b = fs0 x := (congrArg Prod.snd hxe).symm
    have hax : a = x := (congrArg Prod.fst hxe).symm
    rw [hb, hax.symm, ha]
  · simpa [Function.comp] using hp

/-- Claim C1 witness: the concrete run (both formats, duplicate aliases,
mimalloc disabled and restored) instantiating the theorem at each of its
two snapshotted targets. -/
theorem claim_C1_witness :
    collect_pkg_paths isFileC rootC [argA, argAj, argB] = .ok [jsonPathC, dslPathC] ∧
    runC.fs jsonPathC = fs0C jsonPathC ∧
    runC.fs dslPathC = fs0C dslPathC := by
  refine ⟨rfl, ?_, ?_⟩
  · exact claim_C1 isFileC (fun _ => false) fs0C rootC [argA, argAj, argB] linuxFlags 0
      (some mimPathC) false [jsonPathC, dslPathC] jsonPathC rfl (by simp)
  · exact claim_C1 isFileC (fun _ => false) fs0C rootC [argA, argAj, argB] linuxFlags 0
      (some mimPathC) false [jsonPathC, dslPathC] dslPathC rfl (by simp)
